import Mathlib

/-!
Verification of the single-file Telegram relay bot (src/deepseektg.py).

The embedding mirrors the source:
* text is modelled as `List Char`;
* monotonic clock readings are `Int` (the code only compares differences
  against the 4-second threshold);
* the streaming upstream is modelled by the list of chunks it yields, each
  tagged with the clock reading observed on its arrival, plus a flag saying
  whether pulling the next fragment raises;
* outbound chat-platform calls are recorded as effects, and an oracle says
  which outbound calls fail (raise).
-/

namespace DeepseekTG

/-- The fixed allow-list, `AUTHORIZED_USERS` (line 18 of the source). -/
def AUTHORIZED_USERS : List Nat := [123456789, 987654321]

/-- Telegram's message length cap, `MAX_MESSAGE_LENGTH` (line 24). -/
def MAX_MESSAGE_LENGTH : Nat := 4096

/-- Characters removed by Python's `str.strip()` for ASCII input. -/
def pyIsSpace (c : Char) : Bool :=
  c = ' ' || c = '\t' || c = '\n' || c = '\r' || c = '\x0b' || c = '\x0c'

/-- Python `s.strip()`: drop leading and trailing whitespace. -/
def pyStrip (l : List Char) : List Char :=
  ((l.dropWhile pyIsSpace).reverse.dropWhile pyIsSpace).reverse

/-- Scanning for the end of a regex match of `<.*?>` that started just before
`l`: Python's `.` does not match a newline, so the match succeeds at the first
subsequent closing bracket, provided no newline occurs first.  Returns the
remainder of the input after the consumed match. -/
def findClose : List Char → Option (List Char)
  | [] => none
  | c :: cs =>
    if c = '>' then some cs
    else if c = '\n' then none
    else findClose cs

/-- One pass of `re.sub(r"<.*?>", "", s)` (lines 111 and 122), written with a
fuel argument so that the scan is structurally recursive (the fuel never runs
out when it starts at the input length, since every step consumes at least one
character).  `re.sub` scans left to right; at an opening bracket it removes
through the first closing bracket reachable without crossing a newline,
otherwise the character is kept and scanning resumes at the next position. -/
def removeTagsGo : Nat → List Char → List Char
  | _, [] => []
  | 0, l => l
  | fuel + 1, c :: cs =>
    if c = '<' then
      match findClose cs with
      | some rest => removeTagsGo fuel rest
      | none => c :: removeTagsGo fuel cs
    else c :: removeTagsGo fuel cs

/-- The substitution `re.sub(r"<.*?>", "", s)` on the accumulated buffer. -/
def removeTags (l : List Char) : List Char :=
  removeTagsGo l.length l

/-- The sanitization `re.sub(r"<.*?>", "", accumulated_text).strip()` of lines 111 and 122. -/
def sanitize (l : List Char) : List Char :=
  pyStrip (removeTags l)

/-- The text passed to `edit_text`: the sanitized buffer, truncated to its
last `MAX_MESSAGE_LENGTH` characters when longer (lines 111-114 and
122-124; `cleaned_text[-MAX_MESSAGE_LENGTH:]`). -/
def displayText (l : List Char) : List Char :=
  if MAX_MESSAGE_LENGTH < (sanitize l).length then
    (sanitize l).drop ((sanitize l).length - MAX_MESSAGE_LENGTH)
  else sanitize l

/-- Placeholder text sent at line 99. -/
def processingText : List Char := "Processing your request, please wait...".data

/-- Apology text of the outer exception handler (line 128). -/
def apologyText : List Char := "Sorry, there was an error processing your request.".data

/-- Reply of the not-started branch (line 95). -/
def startPromptText : List Char := "Please type /start to begin.".data

/-- Reply of `start` to an unauthorized sender (line 72). -/
def notAuthorizedText : List Char := "You're not authorized to use this bot.".data

/-- Reply of `start` to an authorized sender (line 76). -/
def helloText : List Char := "Hello! You're authorized. Send me a message and I'll reply using Fireworks AI.".data

/-- One observable side effect of a handler run, in program order. -/
inductive Eff
  | reply (text : List Char)
  | typing
  | streamCall
  | edit (text : List Char)
  | logInfo
  | logWarning
  | logError
  | logException
deriving DecidableEq, Repr

/-- Which outbound chat-platform calls raise: the placeholder `reply_text`,
the `send_chat_action`, and the n-th `edit_text` attempt of the run. -/
structure Oracle where
  sendFails : Bool
  typingFails : Bool
  editFails : Nat → Bool

/-- The oracle under which every outbound call succeeds. -/
def allOk : Oracle := ⟨false, false, fun _ => false⟩

/-- The oracle under which every `edit_text` attempt fails. -/
def allEditsFail : Oracle := ⟨false, false, fun _ => true⟩

/-- Result of the `async for` drain loop (lines 106-119): the accumulated
buffer, the last-edit clock value, the number of edit attempts made, and the
effects emitted inside the loop. -/
structure LoopOut where
  acc : List Char
  last : Int
  edits : Nat
  effs : List Eff
deriving DecidableEq, Repr

/-- The drain loop, lines 106-119 of the source: each arriving chunk is
appended to the buffer first; then, if at least 4 seconds have passed since
the last edit, the display snapshot of the whole buffer is sent as an edit
(a failure of that edit is logged and the loop continues), and the last-edit
time is reset to the current clock. -/
def drainLoop (orc : Oracle) :
    List (List Char × Int) → List Char → Int → Nat → LoopOut
  | [], acc, last, idx => ⟨acc, last, idx, []⟩
  | (chunk, now) :: rest, acc, last, idx =>
    if 4 ≤ now - last then
      let out := drainLoop orc rest (acc ++ chunk) now (idx + 1)
      ⟨out.acc, out.last, out.edits,
        Eff.edit (displayText (acc ++ chunk)) ::
          ((if orc.editFails idx then [Eff.logError] else []) ++ out.effs)⟩
    else
      drainLoop orc rest (acc ++ chunk) last idx

/-- What happens after the drain loop, given whether pulling fragments raised
(`streamErrors`).  On an upstream error the outer handler logs and attempts
the apology edit (lines 126-128); the apology edit itself is unprotected, so
the run raises exactly when it fails.  Otherwise the final edit (line 125) is
attempted; it sits inside the outer `try`, so its failure is logged by the
outer handler and followed by the apology edit attempt. -/
def afterDrain (orc : Oracle) (streamErrors : Bool) (acc : List Char)
    (idx : Nat) : List Eff × Bool :=
  if streamErrors then
    ([Eff.logException, Eff.edit apologyText], orc.editFails idx)
  else if orc.editFails idx then
    ([Eff.edit (displayText acc), Eff.logException, Eff.edit apologyText],
      orc.editFails (idx + 1))
  else
    ([Eff.edit (displayText acc)], false)

/-- The handler `handle_message` (lines 78-128).  Inputs: the started-users set, the
sender id, the chunk/arrival-time trace of the upstream stream, whether the
stream raises after those chunks, the clock value captured at line 103, and
the outbound-failure oracle.  Output: the started-users set after the run
(the function never mutates it), the effects in order, and whether the
handler itself raises. -/
def handle_message (started : List Nat) (uid : Nat)
    (chunks : List (List Char × Int)) (streamErrors : Bool) (t0 : Int)
    (orc : Oracle) : List Nat × List Eff × Bool :=
  if uid ∈ AUTHORIZED_USERS then
    if uid ∈ started then
      if orc.sendFails then
        (started, [Eff.logInfo, Eff.reply processingText], true)
      else if orc.typingFails then
        (started, [Eff.logInfo, Eff.reply processingText, Eff.typing], true)
      else
        let out := drainLoop orc chunks [] t0 0
        let fin := afterDrain orc streamErrors out.acc out.edits
        (started,
          [Eff.logInfo, Eff.reply processingText, Eff.typing, Eff.streamCall]
            ++ out.effs ++ fin.1,
          fin.2)
    else
      (started, [Eff.logInfo, Eff.reply startPromptText], orc.sendFails)
  else
    (started, [Eff.logInfo, Eff.logWarning], false)

/-- The command handler `start` (lines 65-76): unauthorized senders get the refusal reply and the
started set is untouched; authorized senders are added and greeted. -/
def start (started : List Nat) (uid : Nat) : List Nat × List Eff :=
  if uid ∈ AUTHORIZED_USERS then
    ((if uid ∈ started then started else uid :: started),
      [Eff.logInfo, Eff.reply helloText])
  else
    (started, [Eff.logInfo, Eff.logWarning, Eff.reply notAuthorizedText])

/-- Texts of the `edit_text` attempts among a run's effects, in order. -/
def editTexts (effs : List Eff) : List (List Char) :=
  effs.filterMap (fun e =>
    match e with
    | Eff.edit t => some t
    | _ => none)

/-- Texts of the `reply_text` attempts among a run's effects, in order. -/
def replyTexts (effs : List Eff) : List (List Char) :=
  effs.filterMap (fun e =>
    match e with
    | Eff.reply t => some t
    | _ => none)

/-- The inner generator of `stream_fireworks_api` (lines 40-48): the upstream
chunks' delta contents are `Option` strings; a chunk is yielded only when its
content is truthy, i.e. neither absent (`None`) nor empty. -/
def adapterYields (deltas : List (Option (List Char))) : List (List Char) :=
  deltas.filterMap (fun d =>
    match d with
    | none => none
    | some s => if s.isEmpty then none else some s)

/-- The sequence described by the claim: the delta contents that are present
and non-empty, in order. -/
def nonEmptyDeltas (deltas : List (Option (List Char))) : List (List Char) :=
  (deltas.filterMap id).filter (fun s => !s.isEmpty)

/-- Scan for a closing bracket as the claim words it: the first closing angle
bracket, with any characters (including newlines) before it. -/
def findCloseClaim : List Char → Option (List Char)
  | [] => none
  | c :: cs => if c = '>' then some cs else findCloseClaim cs

/-- Tag removal exactly as claim C4 words it: every substring consisting of an
opening angle bracket, any characters including none, then the first closing
angle bracket, is removed. -/
def removeTagsClaimGo : Nat → List Char → List Char
  | _, [] => []
  | 0, l => l
  | fuel + 1, c :: cs =>
    if c = '<' then
      match findCloseClaim cs with
      | some rest => removeTagsClaimGo fuel rest
      | none => c :: removeTagsClaimGo fuel cs
    else c :: removeTagsClaimGo fuel cs

/-- Tag removal under claim C4's reading of the pattern. -/
def removeTagsClaim (l : List Char) : List Char :=
  removeTagsClaimGo l.length l

/-- Tag removal as the amended claim words it, phrased independently of the
scanning implementation: at an opening bracket, if a closing bracket occurs
before any newline, the segment through the first closing bracket is removed
and scanning resumes after it; otherwise the character is kept. -/
def removeTagsSpec (l : List Char) : List Char :=
  match l with
  | [] => []
  | c :: cs =>
    if c = '<' ∧ '>' ∈ cs.takeWhile (fun d => d ≠ '\n') then
      removeTagsSpec ((cs.dropWhile (fun d => d ≠ '>')).drop 1)
    else c :: removeTagsSpec cs
termination_by l.length
decreasing_by
· simp only [List.length_cons]
  have h1 : ((cs.dropWhile (fun d => d ≠ '>')).drop 1).length ≤
      (cs.dropWhile (fun d => d ≠ '>')).length := by
    simp [List.length_drop]
  have h2 : (cs.dropWhile (fun d => d ≠ '>')).length ≤ cs.length :=
    (List.dropWhile_sublist _).length_le
  omega
· simp only [List.length_cons]
  omega

/-! ## Helper lemmas -/

theorem drainLoop_nil (orc : Oracle) (acc : List Char) (last : Int) (idx : Nat) :
    drainLoop orc [] acc last idx = ⟨acc, last, idx, []⟩ := rfl

theorem drainLoop_cons_skip (orc : Oracle) (chunk : List Char) (now : Int)
    (rest : List (List Char × Int)) (acc : List Char) (last : Int) (idx : Nat)
    (h : now - last < 4) :
    drainLoop orc ((chunk, now) :: rest) acc last idx =
      drainLoop orc rest (acc ++ chunk) last idx := by
  simp only [drainLoop]
  rw [if_neg (not_le.mpr h)]

theorem drainLoop_cons_flush (orc : Oracle) (chunk : List Char) (now : Int)
    (rest : List (List Char × Int)) (acc : List Char) (last : Int) (idx : Nat)
    (h : 4 ≤ now - last) :
    drainLoop orc ((chunk, now) :: rest) acc last idx =
      ⟨(drainLoop orc rest (acc ++ chunk) now (idx + 1)).acc,
       (drainLoop orc rest (acc ++ chunk) now (idx + 1)).last,
       (drainLoop orc rest (acc ++ chunk) now (idx + 1)).edits,
       Eff.edit (displayText (acc ++ chunk)) ::
         ((if orc.editFails idx then [Eff.logError] else []) ++
           (drainLoop orc rest (acc ++ chunk) now (idx + 1)).effs)⟩ := by
  simp only [drainLoop]
  rw [if_pos h]

theorem editTexts_cons_edit (t : List Char) (l : List Eff) :
    editTexts (Eff.edit t :: l) = t :: editTexts l := by
  simp [editTexts]

theorem editTexts_append (a b : List Eff) :
    editTexts (a ++ b) = editTexts a ++ editTexts b := by
  simp [editTexts, List.filterMap_append]

theorem editTexts_logError_ite (b : Bool) (l : List Eff) :
    editTexts ((if b then [Eff.logError] else []) ++ l) = editTexts l := by
  cases b <;> simp [editTexts]

theorem drainLoop_acc (orc : Oracle) (chunks : List (List Char × Int)) :
    ∀ (acc : List Char) (last : Int) (idx : Nat),
      (drainLoop orc chunks acc last idx).acc =
        acc ++ (chunks.map Prod.fst).flatten := by
  induction chunks with
  | nil => intro acc last idx; simp [drainLoop_nil]
  | cons p rest ih =>
    intro acc last idx
    obtain ⟨chunk, now⟩ := p
    by_cases h : 4 ≤ now - last
    · rw [drainLoop_cons_flush orc chunk now rest acc last idx h]
      show (drainLoop orc rest (acc ++ chunk) now (idx + 1)).acc = _
      rw [ih]
      simp
    · rw [drainLoop_cons_skip orc chunk now rest acc last idx (by omega)]
      rw [ih]
      simp

theorem drainLoop_indep (orc1 orc2 : Oracle) (chunks : List (List Char × Int)) :
    ∀ (acc : List Char) (last : Int) (idx : Nat),
      (drainLoop orc1 chunks acc last idx).acc =
          (drainLoop orc2 chunks acc last idx).acc ∧
        (drainLoop orc1 chunks acc last idx).last =
          (drainLoop orc2 chunks acc last idx).last ∧
        (drainLoop orc1 chunks acc last idx).edits =
          (drainLoop orc2 chunks acc last idx).edits ∧
        editTexts (drainLoop orc1 chunks acc last idx).effs =
          editTexts (drainLoop orc2 chunks acc last idx).effs := by
  induction chunks with
  | nil => intro acc last idx; exact ⟨rfl, rfl, rfl, rfl⟩
  | cons p rest ih =>
    intro acc last idx
    obtain ⟨chunk, now⟩ := p
    by_cases h : 4 ≤ now - last
    · rw [drainLoop_cons_flush orc1 chunk now rest acc last idx h,
        drainLoop_cons_flush orc2 chunk now rest acc last idx h]
      obtain ⟨ha, hl, he, ht⟩ := ih (acc ++ chunk) now (idx + 1)
      exact ⟨ha, hl, he, by
        rw [editTexts_cons_edit, editTexts_cons_edit,
          editTexts_logError_ite, editTexts_logError_ite, ht]⟩
    · rw [drainLoop_cons_skip orc1 chunk now rest acc last idx (by omega),
        drainLoop_cons_skip orc2 chunk now rest acc last idx (by omega)]
      exact ih (acc ++ chunk) last idx

theorem handle_message_run (chunks : List (List Char × Int)) (se : Bool)
    (t0 : Int) (orc : Oracle) (hs : orc.sendFails = false)
    (ht : orc.typingFails = false) :
    handle_message [123456789] 123456789 chunks se t0 orc =
      ([123456789],
        [Eff.logInfo, Eff.reply processingText, Eff.typing, Eff.streamCall]
          ++ (drainLoop orc chunks [] t0 0).effs
          ++ (afterDrain orc se (drainLoop orc chunks [] t0 0).acc
              (drainLoop orc chunks [] t0 0).edits).1,
        (afterDrain orc se (drainLoop orc chunks [] t0 0).acc
            (drainLoop orc chunks [] t0 0).edits).2) := by
  rw [handle_message,
    if_pos (show (123456789 : Nat) ∈ AUTHORIZED_USERS by decide),
    if_pos (show (123456789 : Nat) ∈ [123456789] by decide)]
  rw [hs, ht]
  simp

theorem allOk_editFails (n : Nat) : allOk.editFails n = false := rfl

theorem adapterYields_eq (deltas : List (Option (List Char))) :
    adapterYields deltas = nonEmptyDeltas deltas := by
  induction deltas with
  | nil => rfl
  | cons d rest ih =>
    cases d with
    | none =>
      have h2 : adapterYields (none :: rest) = adapterYields rest := by
        simp [adapterYields]
      have h3 : nonEmptyDeltas (none :: rest) = nonEmptyDeltas rest := by
        simp [nonEmptyDeltas]
      rw [h2, h3, ih]
    | some s =>
      cases s with
      | nil =>
        have h2 : adapterYields (some [] :: rest) = adapterYields rest := by
          simp [adapterYields]
        have h3 : nonEmptyDeltas (some [] :: rest) = nonEmptyDeltas rest := by
          simp [nonEmptyDeltas]
        rw [h2, h3, ih]
      | cons c cs =>
        have h2 : adapterYields (some (c :: cs) :: rest) =
            (c :: cs) :: adapterYields rest := by
          simp [adapterYields]
        have h3 : nonEmptyDeltas (some (c :: cs) :: rest) =
            (c :: cs) :: nonEmptyDeltas rest := by
          simp [nonEmptyDeltas]
        rw [h2, h3, ih]

theorem drainLoop_edit_mem (orc : Oracle) (chunks : List (List Char × Int)) :
    ∀ (acc : List Char) (last : Int) (idx : Nat) (t : List Char),
      Eff.edit t ∈ (drainLoop orc chunks acc last idx).effs →
      ∃ k, 1 ≤ k ∧ k ≤ chunks.length ∧
        t = displayText (acc ++ ((chunks.take k).map Prod.fst).flatten) := by
  induction chunks with
  | nil =>
    intro acc last idx t hmem
    rw [drainLoop_nil] at hmem
    simp at hmem
  | cons p rest ih =>
    intro acc last idx t hmem
    obtain ⟨chunk, now⟩ := p
    by_cases h : 4 ≤ now - last
    · rw [drainLoop_cons_flush orc chunk now rest acc last idx h] at hmem
      have hmem2 : Eff.edit t = Eff.edit (displayText (acc ++ chunk)) ∨
          Eff.edit t ∈ (drainLoop orc rest (acc ++ chunk) now (idx + 1)).effs := by
        rcases List.mem_cons.mp hmem with h1 | h1
        · exact Or.inl h1
        · rcases List.mem_append.mp h1 with h2 | h2
          · cases hb : orc.editFails idx <;> rw [hb] at h2 <;> simp at h2
          · exact Or.inr h2
      rcases hmem2 with h1 | h1
      · refine ⟨1, le_refl 1, by simp, ?_⟩
        injection h1 with heq
        rw [heq]
        simp
      · obtain ⟨k, hk1, hk2, htk⟩ := ih (acc ++ chunk) now (idx + 1) t h1
        refine ⟨k + 1, by omega, by simp; omega, ?_⟩
        rw [htk]
        simp [List.append_assoc]
    · rw [drainLoop_cons_skip orc chunk now rest acc last idx (by omega)] at hmem
      obtain ⟨k, hk1, hk2, htk⟩ := ih (acc ++ chunk) last idx t hmem
      refine ⟨k + 1, by omega, by simp; omega, ?_⟩
      rw [htk]
      simp [List.append_assoc]

theorem displayText_long (b : List Char)
    (h : MAX_MESSAGE_LENGTH < (sanitize b).length) :
    (displayText b).length = MAX_MESSAGE_LENGTH ∧
    displayText b <:+ sanitize b := by
  rw [displayText, if_pos h]
  exact ⟨by rw [List.length_drop]; omega, List.drop_suffix _ _⟩

theorem findClose_eq (cs : List Char) :
    findClose cs =
      if '>' ∈ cs.takeWhile (fun d => d ≠ '\n') then
        some ((cs.dropWhile (fun d => d ≠ '>')).drop 1)
      else none := by
  induction cs with
  | nil => rfl
  | cons c cs ih =>
    by_cases hgt : c = '>'
    · subst hgt
      simp [findClose, List.takeWhile_cons, List.dropWhile_cons]
    · by_cases hnl : c = '\n'
      · subst hnl
        simp [findClose, List.takeWhile_cons]
      · simp [findClose, List.takeWhile_cons, List.dropWhile_cons, hgt, hnl,
          Ne.symm hgt, ih]

theorem removeTagsGo_eq_spec : ∀ (fuel : Nat) (l : List Char),
    l.length ≤ fuel → removeTagsGo fuel l = removeTagsSpec l := by
  intro fuel
  induction fuel with
  | zero =>
    intro l hl
    have hn : l = [] := List.eq_nil_of_length_eq_zero (Nat.le_zero.mp hl)
    subst hn
    rw [removeTagsSpec]
    simp [removeTagsGo]
  | succ fuel ih =>
    intro l hl
    cases l with
    | nil =>
      rw [removeTagsSpec]
      simp [removeTagsGo]
    | cons c cs =>
      have hcs : cs.length ≤ fuel := by
        simp only [List.length_cons] at hl
        omega
      simp only [removeTagsGo]
      by_cases hc : c = '<'
      · rw [if_pos hc]
        rcases hfc : findClose cs with _ | rest
        · have hmem : ¬ '>' ∈ cs.takeWhile (fun d => d ≠ '\n') := by
            intro hm
            rw [findClose_eq, if_pos hm] at hfc
            simp at hfc
          conv_rhs => rw [removeTagsSpec]
          rw [if_neg (fun hand => hmem hand.2)]
          rw [ih cs hcs]
        · have hpair : '>' ∈ cs.takeWhile (fun d => d ≠ '\n') ∧
              rest = (cs.dropWhile (fun d => d ≠ '>')).drop 1 := by
            by_cases hm : '>' ∈ cs.takeWhile (fun d => d ≠ '\n')
            · rw [findClose_eq, if_pos hm] at hfc
              exact ⟨hm, (Option.some.inj hfc).symm⟩
            · rw [findClose_eq, if_neg hm] at hfc
              simp at hfc
          obtain ⟨hm, hrest⟩ := hpair
          have hlen : rest.length ≤ fuel := by
            have h1 : ((cs.dropWhile (fun d => d ≠ '>')).drop 1).length ≤
                (cs.dropWhile (fun d => d ≠ '>')).length := by
              simp [List.length_drop]
            have h2 : (cs.dropWhile (fun d => d ≠ '>')).length ≤ cs.length :=
              (List.dropWhile_sublist _).length_le
            rw [hrest]
            omega
          conv_rhs => rw [removeTagsSpec]
          rw [if_pos ⟨hc, hm⟩, ← hrest]
          exact ih rest hlen
      · rw [if_neg hc]
        conv_rhs => rw [removeTagsSpec]
        rw [if_neg (fun hand => hc hand.1)]
        rw [ih cs hcs]

/-! ## Claim theorems -/

/-- C6: a sender outside the fixed allow-list gets exactly one
"not authorized" reply from the init command and no started-set change, and
a freeform message from them is silently ignored: no reply, no placeholder,
no streaming call, no edit, no state change. -/
theorem c6_unauthorized (uid : Nat) (started : List Nat)
    (h : uid ∉ AUTHORIZED_USERS) :
    (start started uid).1 = started ∧
    replyTexts (start started uid).2 = [notAuthorizedText] ∧
    ∀ (chunks : List (List Char × Int)) (se : Bool) (t0 : Int) (orc : Oracle),
      handle_message started uid chunks se t0 orc =
        (started, [Eff.logInfo, Eff.logWarning], false) := by
  have hst : start started uid =
      (started, [Eff.logInfo, Eff.logWarning, Eff.reply notAuthorizedText]) := by
    rw [start, if_neg h]
  refine ⟨by rw [hst], by rw [hst]; rfl, ?_⟩
  intro chunks se t0 orc
  rw [handle_message, if_neg h]

/-- C6 witness: the concrete unauthorized sender 0 against an empty started
set. -/
theorem c6_unauthorized_witness :
    (0 ∉ AUTHORIZED_USERS) ∧
    (start [] 0).1 = [] ∧
    replyTexts (start [] 0).2 = [notAuthorizedText] ∧
    handle_message [] 0 [] false 0 allOk =
      ([], [Eff.logInfo, Eff.logWarning], false) :=
  ⟨by decide, (c6_unauthorized 0 [] (by decide)).1,
    (c6_unauthorized 0 [] (by decide)).2.1,
    (c6_unauthorized 0 [] (by decide)).2.2 [] false 0 allOk⟩

/-- C7: an authorized sender who has not run /start gets exactly one reply
prompting initialization, with no edit, no placeholder, no typing indicator,
no streaming call, and the started set untouched. -/
theorem c7_not_started (uid : Nat) (started : List Nat)
    (hAuth : uid ∈ AUTHORIZED_USERS) (hNs : uid ∉ started)
    (chunks : List (List Char × Int)) (se : Bool) (t0 : Int) (orc : Oracle) :
    handle_message started uid chunks se t0 orc =
      (started, [Eff.logInfo, Eff.reply startPromptText], orc.sendFails) ∧
    editTexts (handle_message started uid chunks se t0 orc).2.1 = [] ∧
    replyTexts (handle_message started uid chunks se t0 orc).2.1 =
      [startPromptText] ∧
    Eff.streamCall ∉ (handle_message started uid chunks se t0 orc).2.1 ∧
    Eff.typing ∉ (handle_message started uid chunks se t0 orc).2.1 := by
  have hm : handle_message started uid chunks se t0 orc =
      (started, [Eff.logInfo, Eff.reply startPromptText], orc.sendFails) := by
    rw [handle_message, if_pos hAuth, if_neg hNs]
  rw [hm]
  refine ⟨rfl, rfl, rfl, by simp, by simp⟩

/-- C7 witness: the concrete authorized sender 123456789 with an empty
started set. -/
theorem c7_not_started_witness :
    ((123456789 : Nat) ∈ AUTHORIZED_USERS ∧
      (123456789 : Nat) ∉ ([] : List Nat)) ∧
    handle_message [] 123456789 [("hello".data, 0)] false 0 allOk =
      ([], [Eff.logInfo, Eff.reply startPromptText], false) :=
  ⟨⟨by decide, by decide⟩,
    (c7_not_started 123456789 [] (by decide) (by decide)
      [("hello".data, 0)] false 0 allOk).1⟩

/-- C8: when the upstream raises after yielding "partial" and no flush has
happened (threshold never reached), exactly one edit occurs and its text is
the fixed apology string, not the buffered "partial". -/
theorem c8_upstream_error (t0 t1 : Int) (orc : Oracle)
    (hs : orc.sendFails = false) (ht : orc.typingFails = false)
    (hlt : t1 - t0 < 4) :
    editTexts (handle_message [123456789] 123456789
        [("partial".data, t1)] true t0 orc).2.1 = [apologyText] ∧
    apologyText ≠ "partial".data := by
  rw [handle_message_run _ _ _ _ hs ht]
  rw [drainLoop_cons_skip orc _ _ _ _ _ _ hlt, drainLoop_nil]
  refine ⟨?_, by decide⟩
  rw [afterDrain, if_pos rfl]
  rw [editTexts_append, editTexts_append]
  rfl

/-- C8 witness: "partial" buffered at time 0 with the stream erroring, all
outbound calls succeeding. -/
theorem c8_upstream_error_witness :
    (allOk.sendFails = false ∧ allOk.typingFails = false ∧
      (0 : Int) - 0 < 4) ∧
    editTexts (handle_message [123456789] 123456789
        [("partial".data, 0)] true 0 allOk).2.1 = [apologyText] :=
  ⟨⟨rfl, rfl, by decide⟩,
    (c8_upstream_error 0 0 allOk rfl rfl (by decide)).1⟩

/-- C9: with fragments "Hi", " there", "!" all arriving under the 4-second
threshold, the run is exactly one placeholder send, one typing indicator,
zero intermediate edits, and one unconditional final edit "Hi there!". -/
theorem c9_fast_stream (t0 t1 t2 t3 : Int)
    (h1 : t1 - t0 < 4) (h2 : t2 - t0 < 4) (h3 : t3 - t0 < 4) :
    handle_message [123456789] 123456789
        [("Hi".data, t1), (" there".data, t2), ("!".data, t3)] false t0 allOk =
      ([123456789],
        [Eff.logInfo, Eff.reply processingText, Eff.typing, Eff.streamCall,
          Eff.edit ("Hi there!".data)], false) := by
  rw [handle_message_run _ _ _ _ rfl rfl]
  rw [drainLoop_cons_skip allOk _ _ _ _ _ _ h1,
    drainLoop_cons_skip allOk _ _ _ _ _ _ h2,
    drainLoop_cons_skip allOk _ _ _ _ _ _ h3, drainLoop_nil]
  rw [afterDrain]
  norm_num
  decide

/-- C9 witness: all three fragments arriving at clock 0. -/
theorem c9_fast_stream_witness :
    ((0 : Int) - 0 < 4) ∧
    handle_message [123456789] 123456789
        [("Hi".data, 0), (" there".data, 0), ("!".data, 0)] false 0 allOk =
      ([123456789],
        [Eff.logInfo, Eff.reply processingText, Eff.typing, Eff.streamCall,
          Eff.edit ("Hi there!".data)], false) :=
  ⟨by decide, c9_fast_stream 0 0 0 0 (by decide) (by decide) (by decide)⟩

/-- C1 counterexample: fragments "a", "b", "c" at clocks 0, 0, 5 (so at
least 4 seconds pass between fragment 2 and fragment 3, and less than 4
before that).  The single intermediate edit carries "abc" — the sanitized
concatenation of all three fragments, because the arriving chunk is appended
to the buffer before the threshold check — not the sanitized concatenation
"ab" of fragments 1 and 2 that the claim predicts. -/
theorem c1_threshold_counterexample :
    editTexts (handle_message [123456789] 123456789
        [("a".data, 0), ("b".data, 0), ("c".data, 5)] false 0 allOk).2.1 =
      ["abc".data, "abc".data] ∧
    "abc".data ≠ sanitize ("a".data ++ "b".data) := by
  decide

/-- C1 amended: under the claim's timing, the single intermediate edit (and
the final edit) both carry the display snapshot of the concatenation of all
three fragments, since the fragment crossing the threshold is appended
before the flush. -/
theorem c1_threshold_amended (f1 f2 f3 : List Char) (t0 t1 t2 t3 : Int)
    (h1 : t1 - t0 < 4) (h2 : t2 - t0 < 4) (h0 : t0 ≤ t2) (h3 : 4 ≤ t3 - t2) :
    editTexts (handle_message [123456789] 123456789
        [(f1, t1), (f2, t2), (f3, t3)] false t0 allOk).2.1 =
      [displayText (f1 ++ f2 ++ f3), displayText (f1 ++ f2 ++ f3)] := by
  rw [handle_message_run _ _ _ _ rfl rfl]
  rw [drainLoop_cons_skip allOk _ _ _ _ _ _ h1,
    drainLoop_cons_skip allOk _ _ _ _ _ _ h2,
    drainLoop_cons_flush allOk _ _ _ _ _ _ (by omega), drainLoop_nil]
  simp [afterDrain, allOk, editTexts, List.append_assoc]

/-- C1 amended witness: fragments "a", "b", "c" at clocks 0, 0, 5. -/
theorem c1_threshold_amended_witness :
    ((0 : Int) - 0 < 4 ∧ (0 : Int) ≤ 0 ∧ (4 : Int) ≤ 5 - 0) ∧
    editTexts (handle_message [123456789] 123456789
        [("a".data, 0), ("b".data, 0), ("c".data, 5)] false 0 allOk).2.1 =
      [displayText ("a".data ++ "b".data ++ "c".data),
        displayText ("a".data ++ "b".data ++ "c".data)] :=
  ⟨⟨by decide, by decide, by decide⟩,
    c1_threshold_amended "a".data "b".data "c".data 0 0 0 5
      (by decide) (by decide) (by decide) (by decide)⟩

/-- C2 counterexample: one fragment "hi" under the threshold, no upstream
error, every edit call failing.  The final edit's failure escapes the
per-edit protection, is caught by the outer handler, and the apology edit is
issued — so an edit failure does take the upstream-streaming-error path,
contrary to the claim. -/
theorem c2_final_edit_counterexample :
    editTexts (handle_message [123456789] 123456789
        [("hi".data, 0)] false 0 allEditsFail).2.1 =
      ["hi".data, apologyText] ∧
    Eff.logException ∈ (handle_message [123456789] 123456789
        [("hi".data, 0)] false 0 allEditsFail).2.1 := by
  decide

/-- C3 counterexample: when the placeholder send itself fails, the handler
raises — the failure is not caught inside the handler, contrary to the
claim that every outbound call's failure is caught and logged without the
handler raising. -/
theorem c3_send_failure_counterexample :
    (handle_message [123456789] 123456789 [("hi".data, 0)] false 0
        ⟨true, false, fun _ => false⟩).2.2 = true := by
  decide

/-- C4 counterexample: on the buffer "<a\nb>" the code's sanitization leaves
the text unchanged, because Python's dot does not match a newline, whereas
the claim's pattern — an opening bracket, any characters including none,
then the first closing bracket — would erase the whole string. -/
theorem c4_newline_counterexample :
    sanitize ("<a\nb>".data) = "<a\nb>".data ∧
    removeTagsClaim ("<a\nb>".data) = [] ∧
    removeTags ("<a\nb>".data) ≠ removeTagsClaim ("<a\nb>".data) := by
  decide

/-- C2 amended: a failure of an intermediate edit is logged and the drain
loop continues unchanged — the buffer-snapshot edits attempted are exactly
those of the failure-free run; but a failure of the final edit is caught by
the outer handler and answered with exactly one extra apology edit (the
upstream-streaming-error path). -/
theorem c2_edit_failure_amended (chunks : List (List Char × Int)) (t0 : Int)
    (ef : Nat → Bool) :
    editTexts (handle_message [123456789] 123456789 chunks false t0
        ⟨false, false, ef⟩).2.1 =
      editTexts (handle_message [123456789] 123456789 chunks false t0
        allOk).2.1 ++
        (if ef (drainLoop allOk chunks [] t0 0).edits then [apologyText]
         else []) := by
  obtain ⟨ha, hl, he, ht⟩ := drainLoop_indep ⟨false, false, ef⟩ allOk chunks [] t0 0
  rw [handle_message_run _ _ _ _ rfl rfl, handle_message_run _ _ _ _ rfl rfl]
  rw [editTexts_append, editTexts_append, editTexts_append, editTexts_append]
  rw [ht, ha, he]
  by_cases hef : ef (drainLoop allOk chunks [] t0 0).edits
  · simp [afterDrain, hef, editTexts, allOk_editFails]
  · simp [afterDrain, hef, editTexts, allOk_editFails]

/-- C3 amended: the handler raises exactly when the placeholder send fails,
or the typing indicator fails, or the apology edit is attempted (because the
upstream raised, or because the final edit failed) and itself fails;
failures of intermediate edits never make the handler raise. -/
theorem c3_raise_amended (chunks : List (List Char × Int)) (se : Bool)
    (t0 : Int) (sf tf : Bool) (ef : Nat → Bool) :
    (handle_message [123456789] 123456789 chunks se t0 ⟨sf, tf, ef⟩).2.2 =
      (sf || (!sf && tf) ||
        (!sf && !tf &&
          (if se then ef (drainLoop allOk chunks [] t0 0).edits
           else (ef (drainLoop allOk chunks [] t0 0).edits &&
                 ef ((drainLoop allOk chunks [] t0 0).edits + 1))))) := by
  cases sf with
  | true =>
    rw [handle_message,
      if_pos (show (123456789 : Nat) ∈ AUTHORIZED_USERS by decide),
      if_pos (show (123456789 : Nat) ∈ [123456789] by decide)]
    simp
  | false =>
    cases tf with
    | true =>
      rw [handle_message,
        if_pos (show (123456789 : Nat) ∈ AUTHORIZED_USERS by decide),
        if_pos (show (123456789 : Nat) ∈ [123456789] by decide)]
      simp
    | false =>
      obtain ⟨ha, hl, he, ht⟩ :=
        drainLoop_indep ⟨false, false, ef⟩ allOk chunks [] t0 0
      rw [handle_message_run _ _ _ _ rfl rfl]
      cases se with
      | true => simp [afterDrain, he]
      | false =>
        by_cases hef : ef (drainLoop allOk chunks [] t0 0).edits
        · simp [afterDrain, he, hef]
        · simp [afterDrain, he, hef]

/-- C4 amended: the code's sanitization equals tag removal where the
characters between the brackets are any characters other than a newline
(at an opening bracket, the segment through the first closing bracket is
removed provided no newline comes first), followed by trimming leading and
trailing whitespace; on nested brackets only those non-greedy matches are
removed. -/
theorem c4_sanitize_amended (l : List Char) :
    sanitize l = pyStrip (removeTagsSpec l) := by
  rw [sanitize, removeTags, removeTagsGo_eq_spec l.length l (le_refl _)]

/-- C5: every edit text of a failure-free run (intermediate or final) is the
display snapshot of the buffer accumulated so far — the full buffer
sanitized first, then truncated — and whenever the sanitized buffer exceeds
4096 characters the edited text is exactly its last 4096 characters (the
length-4096 suffix of the sanitized buffer). -/
theorem c5_truncation (chunks : List (List Char × Int)) (t0 : Int)
    (t : List Char)
    (h : Eff.edit t ∈ (handle_message [123456789] 123456789 chunks false t0
        allOk).2.1) :
    ∃ k, k ≤ chunks.length ∧
      t = displayText (((chunks.take k).map Prod.fst).flatten) ∧
      (MAX_MESSAGE_LENGTH <
          (sanitize (((chunks.take k).map Prod.fst).flatten)).length →
        t.length = MAX_MESSAGE_LENGTH ∧
        t <:+ sanitize (((chunks.take k).map Prod.fst).flatten)) := by
  rw [handle_message_run _ _ _ _ rfl rfl] at h
  have hAfter : (afterDrain allOk false (drainLoop allOk chunks [] t0 0).acc
      (drainLoop allOk chunks [] t0 0).edits).1 =
      [Eff.edit (displayText ((chunks.map Prod.fst).flatten))] := by
    rw [afterDrain]
    rw [drainLoop_acc]
    simp [allOk]
  rw [hAfter] at h
  rcases List.mem_append.mp h with h1 | h1
  · rcases List.mem_append.mp h1 with h2 | h2
    · simp at h2
    · obtain ⟨k, hk1, hk2, htk⟩ := drainLoop_edit_mem allOk chunks [] t0 0 t h2
      simp only [List.nil_append] at htk
      refine ⟨k, hk2, htk, ?_⟩
      intro hlong
      rw [htk]
      exact displayText_long _ hlong
  · have heq : t = displayText ((chunks.map Prod.fst).flatten) := by
      rcases List.mem_cons.mp h1 with h2 | h2
      · injection h2
      · simp at h2
    refine ⟨chunks.length, le_refl _, ?_, ?_⟩
    · rw [List.take_length]
      exact heq
    · rw [List.take_length]
      intro hlong
      rw [heq]
      exact displayText_long _ hlong

/-- C5 witness: a single chunk "x" arriving exactly at the threshold. -/
theorem c5_truncation_witness :
    Eff.edit ("x".data) ∈ (handle_message [123456789] 123456789
        [("x".data, 4)] false 0 allOk).2.1 ∧
    ∃ k, k ≤ [("x".data, (4 : Int))].length ∧
      "x".data = displayText ((([("x".data, (4 : Int))].take k).map
        Prod.fst).flatten) ∧
      (MAX_MESSAGE_LENGTH <
          (sanitize ((([("x".data, (4 : Int))].take k).map
            Prod.fst).flatten)).length →
        ("x".data).length = MAX_MESSAGE_LENGTH ∧
        "x".data <:+ sanitize ((([("x".data, (4 : Int))].take k).map
          Prod.fst).flatten)) :=
  ⟨by decide, c5_truncation [("x".data, 4)] 0 "x".data (by decide)⟩

/-- C10: the streaming adapter yields exactly the present, non-empty delta
contents in order — no empty fragment is ever yielded — and the accumulated
buffer of the drain loop is their in-order concatenation. -/
theorem c10_adapter_nonempty (deltas : List (Option (List Char)))
    (chunks : List (List Char × Int)) (orc : Oracle) (t0 : Int)
    (hc : chunks.map Prod.fst = adapterYields deltas) :
    adapterYields deltas = nonEmptyDeltas deltas ∧
    [] ∉ adapterYields deltas ∧
    (drainLoop orc chunks [] t0 0).acc = (nonEmptyDeltas deltas).flatten := by
  have h1 : adapterYields deltas = nonEmptyDeltas deltas := adapterYields_eq deltas
  refine ⟨h1, ?_, ?_⟩
  · intro hmem
    rw [h1] at hmem
    simp only [nonEmptyDeltas] at hmem
    have hfalse := List.of_mem_filter hmem
    simp at hfalse
  · rw [drainLoop_acc, hc, h1]
    simp

/-- C10 witness: deltas [some "a", none, some "", some "b"] yield
["a", "b"]. -/
theorem c10_adapter_nonempty_witness :
    ([("a".data, (0 : Int)), ("b".data, (0 : Int))].map Prod.fst =
      adapterYields [some "a".data, none, some [], some "b".data]) ∧
    (adapterYields [some "a".data, none, some [], some "b".data] =
      nonEmptyDeltas [some "a".data, none, some [], some "b".data] ∧
    [] ∉ adapterYields [some "a".data, none, some [], some "b".data] ∧
    (drainLoop allOk [("a".data, 0), ("b".data, 0)] [] 0 0).acc =
      (nonEmptyDeltas [some "a".data, none, some [], some "b".data]).flatten) :=
  ⟨by decide,
    c10_adapter_nonempty [some "a".data, none, some [], some "b".data]
      [("a".data, 0), ("b".data, 0)] allOk 0 (by decide)⟩

end DeepseekTG
